import Mathlib

set_option maxHeartbeats 1000000

/-!
Verification development for the two-five-one MIDI capture/playback engine.

The JavaScript sources are shallowly embedded: JS numbers become `ℚ`,
JS arrays become `List`, JS objects with fixed keys become structures,
fallible operations return `Except`/`Option`, and the mutable module
state (`globals` objects) becomes explicit state records threaded through
the functions.  `performance.now()` / `midiEvent.timeStamp` readings are
passed in as explicit `now` arguments.
-/

/-- A recorded note interval (a JS note object with `note`, `start`, `end`,
`velocity`, all JS numbers). -/
structure Note where
  note : ℚ
  start : ℚ
  «end» : ℚ
  velocity : ℚ
deriving Repr, DecidableEq

/-- Embedding of `areOverlapping` (src/js/index.js lines 349-352):
`(note1.note === note2.note) && ((note2.end >= note1.start) && (note1.end >= note2.start))`. -/
def areOverlapping (note1 note2 : Note) : Bool :=
  decide (note1.note = note2.note) &&
    (decide (note1.start ≤ note2.«end») && decide (note2.start ≤ note1.«end»))

/-- Embedding of `util.noteListCopy` (src/js/util.js lines 13-19): a fresh
list whose elements are fresh objects with the same fields (JSON round
trip on a plain note object). -/
def noteListCopy (l : List Note) : List Note :=
  l.map (fun n => { note := n.note, start := n.start, «end» := n.«end», velocity := n.velocity })

/-- Embedding of the inner `while (merged_i < mergedNotes.length)` loop of
`mergeNotes` (src/js/index.js lines 372-387): scan `mergedNotes` from index
`merged_i`; on an overlap, splice the overlapped note out, widen the merging
note (`min` start, `max` end, keep the merging note's velocity) and restart
the scan at index 0; otherwise advance the index.  Returns the final merging
note together with the remaining list. -/
def absorb (mergingNote : Note) (mergedNotes : List Note) (merged_i : Nat) :
    Note × List Note :=
  if h : merged_i < mergedNotes.length then
    if areOverlapping mergingNote (mergedNotes.get ⟨merged_i, h⟩) then
      absorb
        { note := mergingNote.note,
          start := min mergingNote.start (mergedNotes.get ⟨merged_i, h⟩).start,
          «end» := max mergingNote.«end» (mergedNotes.get ⟨merged_i, h⟩).«end»,
          velocity := mergingNote.velocity }
        (mergedNotes.eraseIdx merged_i) 0
    else
      absorb mergingNote mergedNotes (merged_i + 1)
  else
    (mergingNote, mergedNotes)
termination_by (mergedNotes.length, mergedNotes.length - merged_i)
decreasing_by
  · apply Prod.Lex.left
    have := List.length_eraseIdx_add_one h
    omega
  · apply Prod.Lex.right
    omega

/-- Embedding of the insertion loop of `mergeNotes` (src/js/index.js lines
388-399): insert the merging note in front of the first element whose
`start` is strictly greater, appending at the end if there is none. -/
def insertNote (mergingNote : Note) : List Note → List Note
  | [] => [mergingNote]
  | mergedNote :: rest =>
    if mergingNote.start < mergedNote.start then mergingNote :: mergedNote :: rest
    else mergedNote :: insertNote mergingNote rest

/-- One iteration of the outer `for` loop of `mergeNotes`: absorb every
overlapping note of the accumulating result into the incoming note, then
insert the widened note preserving ascending `start` order. -/
def mergeStep (mergedNotes : List Note) (newNote : Note) : List Note :=
  insertNote (absorb newNote mergedNotes 0).1 (absorb newNote mergedNotes 0).2

/-- Embedding of `mergeNotes` (src/js/index.js lines 368-402). -/
def mergeNotes (oldNotes newNotes : List Note) : List Note :=
  newNotes.foldl mergeStep (noteListCopy oldNotes)

/-- The Note List invariant (spec §3): ascending by `start`, and no two
notes overlap under the `areOverlapping` test (which already requires equal
pitch). -/
def NoteListInvariant (l : List Note) : Prop :=
  l.Pairwise (fun a b => a.start ≤ b.start) ∧
    l.Pairwise (fun a b => areOverlapping a b = false)

/-! Embedding of the midi module (src/unnamed/part_006). -/

/-- `midi.NOTE_ON_START = 0b1001`. -/
def NOTE_ON_START : Nat := 9

/-- `midi.NOTE_OFF_START = 0b1000`. -/
def NOTE_OFF_START : Nat := 8

/-- The three bytes of a note on/off MIDI message (`midiMsg[0]`, `midiMsg[1]`,
`midiMsg[2]` of the `Uint8Array`). -/
structure MidiMessage where
  status : Nat
  data1 : Nat
  data2 : Nat
deriving Repr, DecidableEq

/-- A `MIDIMessageEvent`: the message data plus its hardware `timeStamp`. -/
structure MidiEvent where
  data : MidiMessage
  timeStamp : ℚ
deriving Repr, DecidableEq

/-- Embedding of `midi.isNoteOnMessage` (src/unnamed/part_006 lines 22-30). -/
def isNoteOnMessage (midiMsg : MidiMessage) : Bool :=
  if midiMsg.status >>> 4 = NOTE_ON_START then decide (midiMsg.data2 ≠ 0)
  else false

/-- Embedding of `midi.isNoteOffMessage` (src/unnamed/part_006 lines 43-54). -/
def isNoteOffMessage (midiMsg : MidiMessage) : Bool :=
  if midiMsg.status >>> 4 = NOTE_OFF_START then true
  else if midiMsg.status >>> 4 = NOTE_ON_START then decide (midiMsg.data2 = 0)
  else false

/-- Embedding of `midi.getNoteFromNoteMessage`. -/
def getNoteFromNoteMessage (midiMsg : MidiMessage) : Nat := midiMsg.data1

/-- Embedding of `midi.getVelocityFromNoteMessage`. -/
def getVelocityFromNoteMessage (midiMsg : MidiMessage) : Nat := midiMsg.data2

/-- A scheduled `midiOutput.send(bytes, time)` call. -/
structure ScheduledMessage where
  data : List ℚ
  time : ℚ
deriving Repr, DecidableEq

/-- Embedding of `midi.sendNoteOn` (status byte `(NOTE_ON_START << 4) | channel`). -/
def sendNoteOn (note velocity time : ℚ) (channel : Nat) : ScheduledMessage :=
  { data := [(((NOTE_ON_START <<< 4) ||| channel : Nat) : ℚ), note, velocity], time := time }

/-- Embedding of `midi.sendNoteOff` (status byte `(NOTE_OFF_START << 4) | channel`,
velocity byte 0). -/
def sendNoteOff (note time : ℚ) (channel : Nat) : ScheduledMessage :=
  { data := [(((NOTE_OFF_START <<< 4) ||| channel : Nat) : ℚ), note, 0], time := time }

/-- Embedding of `midi.sendNote`: a Note On at `onTime` followed by a Note Off
at `offTime`. -/
def sendNote (note velocity onTime offTime : ℚ) (channel : Nat) : List ScheduledMessage :=
  [sendNoteOn note velocity onTime channel, sendNoteOff note offTime channel]

/-! Embedding of the playback module (src/unnamed/part_000 lines 106-285:
the version with `SYNC_PAD`, an argument object for `play`, and a stop
callback, which is the one the claims cite). -/

/-- `PLAYBACK_INTERVAL` constant (ms between scheduling ticks). -/
def PLAYBACK_INTERVAL : ℚ := 25

/-- `PLAYBACK_LOOKAHEAD` constant (ms of lookahead per tick). -/
def PLAYBACK_LOOKAHEAD : ℚ := 100

/-- `SYNC_PAD` constant (ms of latency budget so the audio anchor can start
in sync). -/
def SYNC_PAD : ℚ := 50

/-- The playback module's `globals` record plus its `isPlaying` flag.
`midiOut` and the interval id are modelled as opaque handles; `bufferSource`
and `stopCallback` record whether the corresponding JS object/function is
set. -/
structure PlaybackState where
  notes : List Note
  midiOut : Option Nat
  bufferSource : Bool
  startPlaybackTime : ℚ
  endPlaybackTime : ℚ
  playbackIndex : Nat
  stopCallback : Bool
  isPlaying : Bool
deriving Repr, DecidableEq

/-- Observable side effects of one `playback.stop()` call: whether the
interval was cleared, the audio buffer source stopped, and the stop
callback invoked. -/
structure StopEffects where
  clearedInterval : Bool
  stoppedBuffer : Bool
  invokedCallback : Bool
deriving Repr, DecidableEq

/-- Embedding of `playback.getTime` (src/unnamed/part_000 lines 270-284). -/
def playbackGetTime (st : PlaybackState) (now : ℚ) : ℚ :=
  if st.isPlaying then now - st.startPlaybackTime else 0

/-- Embedding of `playback.stop` (src/unnamed/part_000 lines 151-165):
capture `getTime()`, then if playing clear the interval, stop the buffer
source if present, reset the index, invoke the callback if present; always
return the captured stop time. -/
def playbackStop (st : PlaybackState) (now : ℚ) : PlaybackState × ℚ × StopEffects :=
  let stopTime := playbackGetTime st now
  if st.isPlaying then
    ({ st with isPlaying := false, playbackIndex := 0 },
     stopTime,
     { clearedInterval := true, stoppedBuffer := st.bufferSource,
       invokedCallback := st.stopCallback })
  else
    (st, stopTime, { clearedInterval := false, stoppedBuffer := false,
                     invokedCallback := false })

/-- Embedding of the emission loop of `schedulePlaybackSection`
(src/unnamed/part_000 lines 177-198): starting from `playbackIndex`, send
each note whose `start` is within `sectionEndTime`, advancing the index;
stop at the first note beyond the horizon or at the end of the list.
Returns the emitted messages and the final index. -/
def scheduleLoop (notes : List Note) (startPlaybackTime sectionEndTime : ℚ) (i : Nat) :
    List ScheduledMessage × Nat :=
  if h : i < notes.length then
    if decide ((notes.get ⟨i, h⟩).start ≤ sectionEndTime) then
      let r := scheduleLoop notes startPlaybackTime sectionEndTime (i + 1)
      (sendNote (notes.get ⟨i, h⟩).note (notes.get ⟨i, h⟩).velocity
         (startPlaybackTime + (notes.get ⟨i, h⟩).start)
         (startPlaybackTime + (notes.get ⟨i, h⟩).«end») 0 ++ r.1,
       r.2)
    else ([], i)
  else ([], i)
termination_by notes.length - i

/-- Embedding of `schedulePlaybackSection` (src/unnamed/part_000 lines
172-199): one tick at wall-clock time `now`.  Computes
`sectionEndTime = (now - startPlaybackTime) + PLAYBACK_LOOKAHEAD`, emits the
due notes, and if the index has reached the end of the list and
`endPlaybackTime <= now`, calls `playback.stop`. -/
def schedulePlaybackSection (st : PlaybackState) (now : ℚ) :
    List ScheduledMessage × PlaybackState :=
  let sectionEndTime := (now - st.startPlaybackTime) + PLAYBACK_LOOKAHEAD
  let p := scheduleLoop st.notes st.startPlaybackTime sectionEndTime st.playbackIndex
  let st1 := { st with playbackIndex := p.2 }
  if st1.notes.length ≤ p.2 ∧ st1.endPlaybackTime ≤ now then
    (p.1, (playbackStop st1 now).1)
  else
    (p.1, st1)

/-- Modelled from the spec: `util.getMaxTime` is called by `playback.play`
but its definition is not under src/ (src/js/util.js only holds
`noteListCopy`).  Spec §4.4 describes its value as `lastNoteEnd` ("the
timeline's effective end time becomes max(lastNoteEnd, audioDuration)"),
so it is modelled as the maximum `end` over the notes (0 for an empty
list). -/
def getMaxTime (notes : List Note) : ℚ :=
  notes.foldl (fun acc n => max acc n.«end») 0

/-- The argument object of `playback.play`; `audioBuffer` is modelled by
its duration in seconds when present. -/
structure PlayArgs where
  notes : List Note
  midiOut : Option Nat
  startTime : ℚ
  stopCallback : Bool
  audioBuffer : Option ℚ
deriving Repr, DecidableEq

/-- Embedding of the index scan of `playback.play` (src/unnamed/part_000
lines 234-245): the first index whose note `start >= startTime`, or the
list length when none qualifies. -/
def firstUnplayedIndex (notes : List Note) (startTime : ℚ) : Nat :=
  match notes with
  | [] => 0
  | n :: rest =>
    if startTime ≤ n.start then 0 else firstUnplayedIndex rest startTime + 1

/-- Embedding of `playback.play` (src/unnamed/part_000 lines 227-264):
stop if already playing, bind the new notes/output, compute the first
unplayed index, set `startPlaybackTime = now - startTime + SYNC_PAD` and
`endPlaybackTime` from the max time (including the audio buffer's duration
in ms when present), and return `now + SYNC_PAD`. -/
def playbackPlay (st : PlaybackState) (args : PlayArgs) (now : ℚ) : PlaybackState × ℚ :=
  let st0 := if st.isPlaying then (playbackStop st now).1 else st
  let idx := firstUnplayedIndex args.notes args.startTime
  let maxTime0 := getMaxTime args.notes
  let startPlaybackTime := now - args.startTime + SYNC_PAD
  let maxTime := match args.audioBuffer with
    | some durationSec => max maxTime0 (durationSec * 1000)
    | none => maxTime0
  ({ st0 with
      isPlaying := true,
      midiOut := args.midiOut,
      notes := args.notes,
      playbackIndex := idx,
      bufferSource := args.audioBuffer.isSome || st0.bufferSource,
      startPlaybackTime := startPlaybackTime,
      endPlaybackTime := startPlaybackTime + maxTime,
      stopCallback := args.stopCallback },
   now + SYNC_PAD)

/-! Embedding of the record module (src/unnamed/part_003). -/

/-- A recorded note object as built by the recorder: `end` is absent until
the Note Off arrives. -/
structure RecNote where
  note : Nat
  start : ℚ
  velocity : Nat
  «end» : Option ℚ
deriving Repr, DecidableEq

/-- The record module's `globals` record plus `record.notes` and
`record.isRecording`.  The bound `MIDIInput` is modelled as an opaque id;
`hangingNotes` (a JS object mapping note value to index) as an association
list. -/
structure RecordState where
  midiInput : Option Nat
  startTime : ℚ
  hangingNotes : List (Nat × Nat)
  notes : List RecNote
  isRecording : Bool
deriving Repr, DecidableEq

/-- JS object property assignment `o[k] = v`: replace the binding in place
if the key exists, otherwise add it. -/
def assocSet (l : List (Nat × Nat)) (k v : Nat) : List (Nat × Nat) :=
  if (l.lookup k).isSome then l.map (fun p => if p.1 = k then (k, v) else p)
  else l ++ [(k, v)]

/-- JS `delete o[k]`. -/
def assocDelete (l : List (Nat × Nat)) (k : Nat) : List (Nat × Nat) :=
  l.filter (fun p => decide (p.1 ≠ k))

/-- `record.notes[i].end = e` (no-op on an out-of-range index, which does
not occur in reachable states). -/
def setRecEnd (l : List RecNote) (i : Nat) (e : ℚ) : List RecNote :=
  match l[i]? with
  | some n => l.set i { n with «end» := some e }
  | none => l

/-- Embedding of `onMidiInputMessage` (src/unnamed/part_003 lines 37-57):
while recording, a Note On pushes an open note and records its index as
the pitch's hanging note; a Note Off with a hanging note for its pitch
closes that note at `timeStamp - startTime` and clears the hang; anything
else (including a Note Off with no hanging note) leaves the state
unchanged. -/
def onMidiInputMessage (st : RecordState) (midiEvent : MidiEvent) : RecordState :=
  let midiMsg := midiEvent.data
  if st.isRecording then
    if isNoteOnMessage midiMsg then
      let noteValue := getNoteFromNoteMessage midiMsg
      { st with
        notes := st.notes ++
          [{ note := noteValue, start := midiEvent.timeStamp - st.startTime,
             velocity := getVelocityFromNoteMessage midiMsg, «end» := none }],
        hangingNotes := assocSet st.hangingNotes noteValue st.notes.length }
    else if isNoteOffMessage midiMsg then
      let noteValue := getNoteFromNoteMessage midiMsg
      match st.hangingNotes.lookup noteValue with
      | some noteI =>
          { st with
            notes := setRecEnd st.notes noteI (midiEvent.timeStamp - st.startTime),
            hangingNotes := assocDelete st.hangingNotes noteValue }
      | none => st
    else st
  else st

/-- Embedding of `record.start` (src/unnamed/part_003 lines 63-76): rebind
the listener only if the input changed, capture `startTime`, clear the
working note list, set `isRecording`.  The JS function body has no
`return` statement, so the call's value is `undefined`; the returned
`Option ℚ` is therefore always `none`. -/
def recordStart (st : RecordState) (midiInput : Nat) (now : ℚ) : RecordState × Option ℚ :=
  let st1 := if some midiInput ≠ st.midiInput then { st with midiInput := some midiInput }
             else st
  ({ st1 with startTime := now, notes := [], isRecording := true }, none)

/-- `util.noteListCopy` applied at the recorder's note shape: a fresh list
of fresh objects with the same fields. -/
def recNoteListCopy (l : List RecNote) : List RecNote :=
  l.map (fun n => { note := n.note, start := n.start, velocity := n.velocity, «end» := n.«end» })

/-- The `for (var noteValue in globals.hangingNotes)` loop of
`record.stop`: close every hanging note at time `e`. -/
def closeHangingNotes (hangingNotes : List (Nat × Nat)) (notes : List RecNote) (e : ℚ) :
    List RecNote :=
  hangingNotes.foldl (fun ns kv => setRecEnd ns kv.2 e) notes

/-- Embedding of `record.stop` (src/unnamed/part_003 lines 83-96): if
recording, close all hanging notes at `now - startTime`, clear the hangs,
and return a copy of the note list; otherwise return the empty list with
no state change. -/
def recordStop (st : RecordState) (now : ℚ) : RecordState × List RecNote :=
  let e := now - st.startTime
  if st.isRecording then
    let notes := closeHangingNotes st.hangingNotes st.notes e
    ({ st with isRecording := false, hangingNotes := [], notes := notes },
     recNoteListCopy notes)
  else (st, [])

/-! Embedding of the note-list loading and editing functions of the main
module (src/js/index.js lines 210-757: the version with audio support,
which is the one the claims cite). -/

/-- A JS value as far as the note-list validator observes it: a number or
a non-number.  (Comparison operators on a non-number are modelled as
false, as JS `undefined` comparisons are; numeric strings, which JS would
coerce, are not modelled — they can only arise in files that fail
validation anyway.) -/
inductive JSValue where
  | num (val : ℚ)
  | nonNum
deriving Repr, DecidableEq

/-- A parsed JSON note object: each of the four properties may be absent
or hold a non-numeric value. -/
structure RawNote where
  start : Option JSValue
  «end» : Option JSValue
  note : Option JSValue
  velocity : Option JSValue
deriving Repr, DecidableEq

/-- The load-time validation failures of `onPressLoadNotes`, each carrying
the data interpolated into its status message. -/
inductive LoadError where
  | missingProperty (i : Nat) (prop : String)
  | notNumber (i : Nat) (prop : String)
  | negativeProperty (i : Nat) (prop : String)
  | endNotAfterStart (i : Nat)
  | outOfOrder (i : Nat)
  | overlapping (i j : Nat)
deriving Repr, DecidableEq

/-- The per-property checks of the `props` loop of `onPressLoadNotes`
(src/js/index.js lines 557-576): property present, a number, and
non-negative. -/
def checkProp (i : Nat) (prop : String) (v : Option JSValue) : Except LoadError ℚ :=
  match v with
  | none => .error (.missingProperty i prop)
  | some .nonNum => .error (.notNumber i prop)
  | some (.num q) => if q < 0 then .error (.negativeProperty i prop) else .ok q

/-- Validation and normalization of note `i` (the `props` loop followed by
the rebuild of `notes[i]` at src/js/index.js lines 577-582). -/
def validateNote (i : Nat) (r : RawNote) : Except LoadError Note := do
  let s ← checkProp i "start" r.start
  let e ← checkProp i "end" r.«end»
  let n ← checkProp i "note" r.note
  let v ← checkProp i "velocity" r.velocity
  pure { note := n, start := s, «end» := e, velocity := v }

/-- The numeric value of a raw property, if it is one. -/
def jsNum : Option JSValue → Option ℚ
  | some (.num q) => some q
  | _ => none

/-- `areOverlapping(notes[i], notes[j])` where `notes[i]` is already
normalized and `notes[j]` is still raw (src/js/index.js line 594):
comparisons against a missing or non-numeric property are false. -/
def rawOverlapping (note1 : Note) (r : RawNote) : Bool :=
  (match jsNum r.note with
   | some q => decide (note1.note = q)
   | none => false) &&
  ((match jsNum r.«end» with
    | some q => decide (note1.start ≤ q)
    | none => false) &&
   (match jsNum r.start with
    | some q => decide (q ≤ note1.«end»)
    | none => false))

/-- The `if (i && notes[i].start < notes[i-1].start)` check; `acc` holds
the already-validated notes in reverse order, so its head is note
`i - 1`. -/
def outOfOrderCheck (acc : List Note) (n : Note) : Bool :=
  match acc with
  | [] => false
  | p :: _ => decide (n.start < p.start)

/-- The `noteloop` of `onPressLoadNotes` (src/js/index.js lines 555-600):
validate and normalize each note in turn, checking `end > start`,
ascending starts, and overlap against every later (still raw) note.
`acc` holds the validated prefix in reverse; `acc.length` is the current
index `i`. -/
def validateLoop (acc : List Note) (rest : List RawNote) : Except LoadError (List Note) :=
  match rest with
  | [] => .ok acc.reverse
  | r :: rs =>
    match validateNote acc.length r with
    | .error e => .error e
    | .ok n =>
      if n.«end» ≤ n.start then .error (.endNotAfterStart acc.length)
      else if outOfOrderCheck acc n then .error (.outOfOrder acc.length)
      else
        match rs.findIdx? (rawOverlapping n) with
        | some k => .error (.overlapping acc.length (acc.length + 1 + k))
        | none => validateLoop (n :: acc) rs

/-- Full validation of a parsed notes file. -/
def validateNotes (raw : List RawNote) : Except LoadError (List Note) :=
  validateLoop [] raw

/-- State-level embedding of `onPressLoadNotes` (src/js/index.js lines
539-610): the canonical note list is replaced only when validation
succeeds (`statusElem.textContent` still "Loading..."); on failure the
error is shown and the canonical list untouched. -/
def onPressLoadNotes (prevNotes : List Note) (raw : List RawNote) :
    List Note × Option LoadError :=
  match validateNotes raw with
  | .ok notes => (notes, none)
  | .error e => (prevNotes, some e)

/-- Embedding of `noteEquals` (src/js/index.js lines 665-673): all four
attributes strictly equal. -/
def noteEquals (note1 note2 : Note) : Bool :=
  decide (note1.start = note2.start) && decide (note1.«end» = note2.«end») &&
    decide (note1.note = note2.note) && decide (note1.velocity = note2.velocity)

/-- Embedding of `onDeleteNote` (src/js/index.js lines 679-687): splice
out the first note equal to the argument (`break` after the first hit);
no match leaves the list unchanged. -/
def onDeleteNote (notes : List Note) (note : Note) : List Note :=
  match notes with
  | [] => []
  | n :: rest => if noteEquals note n then rest else n :: onDeleteNote rest note

/-- The per-note part of the persisted-format contract: numeric (already
enforced by the type), non-negative fields, and `end > start`. -/
def validNote (n : Note) : Prop :=
  0 ≤ n.start ∧ 0 ≤ n.«end» ∧ 0 ≤ n.note ∧ 0 ≤ n.velocity ∧ n.start < n.«end»

lemma areOverlapping_symm (a b : Note) : areOverlapping a b = areOverlapping b a := by
  by_cases h1 : a.note = b.note <;>
    by_cases h2 : a.start ≤ b.«end» <;>
    by_cases h3 : b.start ≤ a.«end» <;>
    simp [areOverlapping, h1, h2, h3, eq_comm]

lemma absorb_out (m : Note) (l : List Note) (i : Nat) (h : ¬ i < l.length) :
    absorb m l i = (m, l) := by
  rw [absorb]
  simp [h]

lemma absorb_hit (m : Note) (l : List Note) (i : Nat) (h : i < l.length)
    (hov : areOverlapping m (l.get ⟨i, h⟩) = true) :
    absorb m l i =
      absorb
        { note := m.note, start := min m.start (l.get ⟨i, h⟩).start,
          «end» := max m.«end» (l.get ⟨i, h⟩).«end», velocity := m.velocity }
        (l.eraseIdx i) 0 := by
  rw [absorb, dif_pos h, if_pos hov]

lemma absorb_miss (m : Note) (l : List Note) (i : Nat) (h : i < l.length)
    (hov : areOverlapping m (l.get ⟨i, h⟩) = false) :
    absorb m l i = absorb m l (i + 1) := by
  rw [absorb, dif_pos h, if_neg (by simpa using hov)]

/-- The absorb loop only removes elements from the accumulating result, and
when it finishes, the final merging note overlaps none of the remaining
notes (indices below the scan index were already checked). -/
lemma absorb_spec (m : Note) (l : List Note) (i : Nat)
    (hpre : ∀ j (hj : j < l.length), j < i → areOverlapping m (l.get ⟨j, hj⟩) = false) :
    (absorb m l i).2.Sublist l ∧
      ∀ x ∈ (absorb m l i).2, areOverlapping (absorb m l i).1 x = false := by
  induction m, l, i using absorb.induct with
  | case1 m l i h hov ih =>
      rw [absorb_hit m l i h hov]
      have := ih (by omega)
      exact ⟨this.1.trans (List.eraseIdx_sublist l i), this.2⟩
  | case2 m l i h hov ih =>
      rw [absorb_miss m l i h (Bool.not_eq_true _ ▸ hov)]
      apply ih
      intro j hj hji
      rcases Nat.lt_or_ge j i with hlt | hge
      · exact hpre j hj hlt
      · have : j = i := by omega
        subst this
        exact Bool.not_eq_true _ ▸ hov
  | case3 m l i h =>
      rw [absorb_out m l i h]
      refine ⟨List.Sublist.refl l, ?_⟩
      intro x hx
      obtain ⟨⟨j, hj⟩, rfl⟩ := List.mem_iff_get.mp hx
      have hj2 : j < l.length := hj
      exact hpre j hj2 (by omega)

lemma mem_insertNote {x n : Note} : ∀ {l : List Note}, x ∈ insertNote n l ↔ x = n ∨ x ∈ l := by
  intro l
  induction l with
  | nil => simp [insertNote]
  | cons m rest ih =>
      by_cases hc : n.start < m.start <;> simp [insertNote, hc, ih] <;> tauto

lemma insertNote_pairwise_le {n : Note} : ∀ {l : List Note},
    l.Pairwise (fun a b => a.start ≤ b.start) →
    (insertNote n l).Pairwise (fun a b => a.start ≤ b.start) := by
  intro l
  induction l with
  | nil => simp [insertNote]
  | cons m rest ih =>
      intro hp
      rw [List.pairwise_cons] at hp
      by_cases hc : n.start < m.start
      · simp only [insertNote, if_pos hc]
        rw [List.pairwise_cons]
        refine ⟨?_, List.pairwise_cons.mpr hp⟩
        intro b hb
        rcases List.mem_cons.mp hb with rfl | hb
        · exact le_of_lt hc
        · exact (le_of_lt hc).trans (hp.1 b hb)
      · simp only [insertNote, if_neg hc]
        rw [List.pairwise_cons]
        refine ⟨?_, ih hp.2⟩
        intro b hb
        rcases mem_insertNote.mp hb with rfl | hb
        · exact le_of_not_lt hc
        · exact hp.1 b hb

lemma insertNote_pairwise_noOv {n : Note} : ∀ {l : List Note},
    (∀ x ∈ l, areOverlapping n x = false) →
    l.Pairwise (fun a b => areOverlapping a b = false) →
    (insertNote n l).Pairwise (fun a b => areOverlapping a b = false) := by
  intro l
  induction l with
  | nil =>
      intro _ _
      simp [insertNote]
  | cons m rest ih =>
      intro hn hp
      rw [List.pairwise_cons] at hp
      by_cases hc : n.start < m.start
      · simp only [insertNote, if_pos hc]
        rw [List.pairwise_cons]
        refine ⟨?_, List.pairwise_cons.mpr hp⟩
        intro b hb
        exact hn b hb
      · simp only [insertNote, if_neg hc]
        rw [List.pairwise_cons]
        refine ⟨?_, ih (fun x hx => hn x (List.mem_cons_of_mem m hx)) hp.2⟩
        intro b hb
        rcases mem_insertNote.mp hb with rfl | hb
        · rw [areOverlapping_symm]
          exact hn m (List.mem_cons_self m rest)
        · exact hp.1 b hb

lemma mergeStep_invariant {l : List Note} (hinv : NoteListInvariant l) (n : Note) :
    NoteListInvariant (mergeStep l n) := by
  obtain ⟨hs, ho⟩ := hinv
  have h := absorb_spec n l 0 (fun j hj hji => absurd hji (Nat.not_lt_zero j))
  exact ⟨insertNote_pairwise_le (List.Pairwise.sublist h.1 hs),
         insertNote_pairwise_noOv h.2 (List.Pairwise.sublist h.1 ho)⟩

lemma foldl_mergeStep_invariant : ∀ (newNotes acc : List Note),
    NoteListInvariant acc → NoteListInvariant (newNotes.foldl mergeStep acc)
  | [], _, h => h
  | n :: rest, acc, h => foldl_mergeStep_invariant rest _ (mergeStep_invariant h n)

lemma noteListCopy_eq (l : List Note) : noteListCopy l = l := by
  induction l with
  | nil => rfl
  | cons n rest ih => simp [noteListCopy]

/-- C1: for every pair of input lists that each satisfy the Note List
invariant (ascending by `start`; no two same-pitch notes whose closed
intervals touch or intersect), `mergeNotes oldNotes newNotes` satisfies the
Note List invariant. -/
theorem mergeNotes_preserves_invariant (oldNotes newNotes : List Note)
    (hold : NoteListInvariant oldNotes) (hnew : NoteListInvariant newNotes) :
    NoteListInvariant (mergeNotes oldNotes newNotes) := by
  unfold mergeNotes
  rw [noteListCopy_eq]
  exact foldl_mergeStep_invariant newNotes oldNotes hold

theorem mergeNotes_preserves_invariant_witness :
    NoteListInvariant (mergeNotes
      [⟨60, 0, 200, 80⟩, ⟨62, 100, 400, 70⟩] [⟨60, 150, 300, 90⟩]) :=
  mergeNotes_preserves_invariant _ _
    (by constructor <;> decide) (by constructor <;> decide)

/-- C3: when merge absorbs a same-pitch overlapping note, the combination
takes the `min` of the starts, the `max` of the ends and the incoming
note's velocity; in particular merging two overlapping single-note lists
yields exactly that one combined note. -/
theorem mergeNotes_overlap_min_max_velocity (a b : Note)
    (hpitch : a.note = b.note) (h1 : b.start ≤ a.«end») (h2 : a.start ≤ b.«end») :
    absorb b [a] 0 =
      ({ note := b.note, start := min a.start b.start,
         «end» := max a.«end» b.«end», velocity := b.velocity }, []) ∧
    mergeNotes [a] [b] =
      [{ note := b.note, start := min a.start b.start,
         «end» := max a.«end» b.«end», velocity := b.velocity }] := by
  have hov : areOverlapping b a = true := by
    simp [areOverlapping, hpitch.symm, h1, h2]
  have habs : absorb b [a] 0 =
      ({ note := b.note, start := min a.start b.start,
         «end» := max a.«end» b.«end», velocity := b.velocity }, []) := by
    rw [absorb_hit b [a] 0 (by simp) (by simpa using hov)]
    simp only [List.get]
    rw [absorb_out _ _ 0 (by simp [List.eraseIdx])]
    rw [min_comm b.start a.start, max_comm b.«end» a.«end»]
    simp [List.eraseIdx]
  refine ⟨habs, ?_⟩
  unfold mergeNotes
  rw [noteListCopy_eq]
  simp only [List.foldl]
  unfold mergeStep
  rw [habs]
  rfl

theorem mergeNotes_overlap_min_max_velocity_witness :
    mergeNotes [⟨60, 0, 200, 80⟩] [⟨60, 150, 300, 90⟩] =
      [⟨60, 0, 300, 90⟩] :=
  (mergeNotes_overlap_min_max_velocity ⟨60, 0, 200, 80⟩ ⟨60, 150, 300, 90⟩
    (by decide) (by decide) (by decide)).2

lemma sendNote_explicit (note velocity onTime offTime : ℚ) :
    sendNote note velocity onTime offTime 0 =
      [{ data := [144, note, velocity], time := onTime },
       { data := [128, note, 0], time := offTime }] := by
  have h1 : ((NOTE_ON_START <<< 4) ||| 0 : Nat) = 144 := by decide
  have h2 : ((NOTE_OFF_START <<< 4) ||| 0 : Nat) = 128 := by decide
  simp [sendNote, sendNoteOn, sendNoteOff, h1, h2]

lemma scheduleLoop_eq_fuel (notes : List Note) (sp se : ℚ) :
    ∀ (fuel i : Nat), notes.length - i ≤ fuel →
      scheduleLoop notes sp se i =
        (((notes.drop i).takeWhile (fun n => decide (n.start ≤ se))).bind
           (fun n => sendNote n.note n.velocity (sp + n.start) (sp + n.«end») 0),
         i + ((notes.drop i).takeWhile (fun n => decide (n.start ≤ se))).length) := by
  intro fuel
  induction fuel with
  | zero =>
      intro i hle
      have h : ¬ i < notes.length := by omega
      rw [scheduleLoop, dif_neg h, List.drop_eq_nil_of_le (by omega)]
      simp
  | succ fuel ih =>
      intro i hle
      by_cases h : i < notes.length
      · by_cases hc : decide ((notes.get ⟨i, h⟩).start ≤ se) = true
        · rw [scheduleLoop, dif_pos h, if_pos hc]
          have hc2 : decide ((notes[i] : Note).start ≤ se) = true := by simpa using hc
          rw [List.drop_eq_getElem_cons h, List.takeWhile_cons, hc2]
          simp only [eq_self_iff_true, if_true, ih (i + 1) (by omega),
            List.cons_bind, List.length_cons, Prod.mk.injEq]
          constructor
          · simp [List.get_eq_getElem]
          · omega
        · rw [scheduleLoop, dif_pos h, if_neg hc]
          have hc2 : decide ((notes[i] : Note).start ≤ se) = false := by
            simpa using hc
          rw [List.drop_eq_getElem_cons h, List.takeWhile_cons, hc2]
          simp
      · rw [scheduleLoop, dif_neg h, List.drop_eq_nil_of_le (Nat.le_of_not_lt h)]
        simp

lemma scheduleLoop_eq (notes : List Note) (sp se : ℚ) (i : Nat) :
    scheduleLoop notes sp se i =
      (((notes.drop i).takeWhile (fun n => decide (n.start ≤ se))).bind
         (fun n => sendNote n.note n.velocity (sp + n.start) (sp + n.«end») 0),
       i + ((notes.drop i).takeWhile (fun n => decide (n.start ≤ se))).length) :=
  scheduleLoop_eq_fuel notes sp se notes.length i (by omega)

lemma takeWhile_eq_filter_of_sorted (c : ℚ) : ∀ (l : List Note),
    l.Pairwise (fun a b => a.start ≤ b.start) →
    l.takeWhile (fun n => decide (n.start ≤ c)) = l.filter (fun n => decide (n.start ≤ c)) := by
  intro l
  induction l with
  | nil => simp
  | cons a rest ih =>
      intro hp
      rw [List.pairwise_cons] at hp
      by_cases hc : a.start ≤ c
      · simp [List.takeWhile_cons, List.filter_cons, hc, ih hp.2]
      · simp only [List.takeWhile_cons, List.filter_cons, hc, decide_False,
          Bool.false_eq_true, if_false]
        rw [eq_comm, List.filter_eq_nil_iff]
        intro b hb
        simp only [decide_eq_true_eq]
        intro hbc
        exact hc ((hp.1 b hb).trans hbc)

/-- C2: on a scheduler tick while playing (with the given list satisfying
the sortedness half of the invariant, as every canonical list does), the
emitted messages are exactly, in ascending index order, those
not-yet-scheduled notes whose `start` is at most
`(now - originTime) + 100`, each as a Note On scheduled at
`originTime + note.start` followed by a Note Off scheduled at
`originTime + note.end`; no note beyond that horizon is emitted. -/
theorem schedulePlaybackSection_emits_horizon (st : PlaybackState) (now : ℚ)
    (hplay : st.isPlaying = true)
    (hsorted : st.notes.Pairwise (fun a b => a.start ≤ b.start)) :
    (schedulePlaybackSection st now).1 =
      ((st.notes.drop st.playbackIndex).filter
          (fun n => decide (n.start ≤ (now - st.startPlaybackTime) + 100))).bind
        (fun n =>
          [{ data := [144, n.note, n.velocity], time := st.startPlaybackTime + n.start },
           { data := [128, n.note, 0], time := st.startPlaybackTime + n.«end» }]) := by
  have hs : (st.notes.drop st.playbackIndex).Pairwise (fun a b => a.start ≤ b.start) :=
    List.Pairwise.sublist (List.drop_sublist _ _) hsorted
  have hfst : (schedulePlaybackSection st now).1 =
      (scheduleLoop st.notes st.startPlaybackTime
        ((now - st.startPlaybackTime) + PLAYBACK_LOOKAHEAD) st.playbackIndex).1 := by
    simp only [schedulePlaybackSection]
    split <;> rfl
  rw [hfst, scheduleLoop_eq]
  rw [takeWhile_eq_filter_of_sorted _ _ hs]
  simp only [sendNote_explicit, PLAYBACK_LOOKAHEAD]

theorem schedulePlaybackSection_emits_horizon_witness :
    (schedulePlaybackSection
      { notes := [⟨60, 0, 50, 100⟩, ⟨62, 120, 180, 100⟩], midiOut := some 0,
        bufferSource := false, startPlaybackTime := 0, endPlaybackTime := 180,
        playbackIndex := 0, stopCallback := false, isPlaying := true } 0).1 =
      [{ data := [144, 60, 100], time := 0 }, { data := [128, 60, 0], time := 50 }] :=
  (schedulePlaybackSection_emits_horizon _ 0 rfl (by decide)).trans
    (by norm_num [List.filter_cons])

lemma firstUnplayedIndex_le (notes : List Note) (t : ℚ) :
    firstUnplayedIndex notes t ≤ notes.length := by
  induction notes with
  | nil => simp [firstUnplayedIndex]
  | cons n rest ih =>
      by_cases hc : t ≤ n.start <;> simp [firstUnplayedIndex, hc] <;> omega

lemma firstUnplayedIndex_before (notes : List Note) (t : ℚ) :
    ∀ j, j < firstUnplayedIndex notes t → ∀ n, notes.get? j = some n → n.start < t := by
  induction notes with
  | nil => simp [firstUnplayedIndex]
  | cons a rest ih =>
      intro j hj n hget
      by_cases hc : t ≤ a.start
      · simp [firstUnplayedIndex, hc] at hj
      · simp only [firstUnplayedIndex, if_neg hc] at hj
        match j, hget with
        | 0, hget =>
            have : a = n := by simpa using hget
            subst this
            exact lt_of_not_le hc
        | (k+1), hget =>
            exact ih k (by omega) n (by simpa using hget)

lemma firstUnplayedIndex_at (notes : List Note) (t : ℚ) :
    ∀ n, notes.get? (firstUnplayedIndex notes t) = some n → t ≤ n.start := by
  induction notes with
  | nil => simp [firstUnplayedIndex]
  | cons a rest ih =>
      intro n hget
      by_cases hc : t ≤ a.start
      · simp only [firstUnplayedIndex, if_pos hc] at hget
        have : a = n := by simpa using hget
        subst this
        exact hc
      · simp only [firstUnplayedIndex, if_neg hc] at hget
        exact ih n (by simpa using hget)

/-- C7: `playback.play` sets the initial playback index to the first
(lowest-index) note whose `start >= startTime` — the list's length when no
note qualifies (the index is `≤ length`, every earlier note starts before
`startTime`, and the note at the index, when there is one, does not) — and
sets the playback origin to `now - startTime + 50` (`SYNC_PAD = 50`). -/
theorem playbackPlay_index_origin (st : PlaybackState) (args : PlayArgs) (now : ℚ) :
    (playbackPlay st args now).1.startPlaybackTime = now - args.startTime + 50 ∧
    (playbackPlay st args now).1.playbackIndex ≤ args.notes.length ∧
    (∀ j, j < (playbackPlay st args now).1.playbackIndex →
       ∀ n, args.notes.get? j = some n → n.start < args.startTime) ∧
    (∀ n, args.notes.get? ((playbackPlay st args now).1.playbackIndex) = some n →
       args.startTime ≤ n.start) := by
  refine ⟨rfl, ?_, ?_, ?_⟩
  · exact firstUnplayedIndex_le args.notes args.startTime
  · exact firstUnplayedIndex_before args.notes args.startTime
  · exact firstUnplayedIndex_at args.notes args.startTime

theorem playbackPlay_index_origin_witness :
    (playbackPlay
        { notes := [], midiOut := none, bufferSource := false, startPlaybackTime := 0,
          endPlaybackTime := 0, playbackIndex := 0, stopCallback := false, isPlaying := false }
        { notes := [⟨60, 0, 50, 100⟩, ⟨62, 120, 180, 100⟩], midiOut := some 0,
          startTime := 60, stopCallback := false, audioBuffer := none } 1000).1.startPlaybackTime =
      1000 - 60 + 50 ∧
    ((60 : ℚ) ≤ 120) := by
  constructor
  · exact (playbackPlay_index_origin _ _ 1000).1
  · exact (playbackPlay_index_origin
      { notes := [], midiOut := none, bufferSource := false, startPlaybackTime := 0,
        endPlaybackTime := 0, playbackIndex := 0, stopCallback := false, isPlaying := false }
      { notes := [⟨60, 0, 50, 100⟩, ⟨62, 120, 180, 100⟩], midiOut := some 0,
        startTime := 60, stopCallback := false, audioBuffer := none } 1000).2.2.2
      ⟨62, 120, 180, 100⟩ (by decide)

/-- C8: `stop()` on a non-active Scheduler or Recorder is an idempotent
no-op: no state field changes, no interval cleared, no buffer stopped, no
callback invoked, and the returned value is the inactive result (0 for the
scheduler, the empty list for the recorder) — both on the first and on a
second consecutive call. -/
theorem stop_idempotent_when_inactive (pst : PlaybackState) (rst : RecordState)
    (t1 t2 t3 t4 : ℚ) (hp : pst.isPlaying = false) (hr : rst.isRecording = false) :
    playbackStop pst t1 =
      (pst, 0, { clearedInterval := false, stoppedBuffer := false, invokedCallback := false }) ∧
    playbackStop (playbackStop pst t1).1 t2 =
      (pst, 0, { clearedInterval := false, stoppedBuffer := false, invokedCallback := false }) ∧
    recordStop rst t3 = (rst, []) ∧
    recordStop (recordStop rst t3).1 t4 = (rst, []) := by
  have h1 : playbackStop pst t1 =
      (pst, 0, { clearedInterval := false, stoppedBuffer := false,
                 invokedCallback := false : StopEffects }) := by
    simp [playbackStop, playbackGetTime, hp]
  have h3 : recordStop rst t3 = (rst, []) := by
    simp [recordStop, hr]
  refine ⟨h1, ?_, h3, ?_⟩
  · rw [h1]
    simp [playbackStop, playbackGetTime, hp]
  · rw [h3]
    simp [recordStop, hr]

theorem stop_idempotent_when_inactive_witness :
    playbackStop
        { notes := [], midiOut := none, bufferSource := false, startPlaybackTime := 0,
          endPlaybackTime := 0, playbackIndex := 0, stopCallback := false, isPlaying := false } 7 =
      ({ notes := [], midiOut := none, bufferSource := false, startPlaybackTime := 0,
         endPlaybackTime := 0, playbackIndex := 0, stopCallback := false, isPlaying := false },
       0, { clearedInterval := false, stoppedBuffer := false, invokedCallback := false }) ∧
    recordStop { midiInput := none, startTime := 3, hangingNotes := [], notes := [],
                 isRecording := false } 9 =
      ({ midiInput := none, startTime := 3, hangingNotes := [], notes := [],
         isRecording := false }, []) := by
  have h := stop_idempotent_when_inactive
    { notes := [], midiOut := none, bufferSource := false, startPlaybackTime := 0,
      endPlaybackTime := 0, playbackIndex := 0, stopCallback := false, isPlaying := false }
    { midiInput := none, startTime := 3, hangingNotes := [], notes := [], isRecording := false }
    7 8 9 10 rfl rfl
  exact ⟨h.1, h.2.2.1⟩

/-- C4 (code bug): `record.start` captures `startTime` from the monotonic
clock, but its body has no `return` statement, so the call's value is
`undefined` (`none`) rather than the captured start time that its caller
`onPressRecord` (src/js/index.js lines 320-343) assigns to
`recordStartTime` and uses to offset the time cursor. -/
theorem recordStart_captures_but_returns_none (st : RecordState) (midiInput : Nat) (now : ℚ) :
    (recordStart st midiInput now).1.startTime = now ∧
    (recordStart st midiInput now).2 = none ∧
    (recordStart st midiInput now).2 ≠ some ((recordStart st midiInput now).1.startTime) :=
  ⟨rfl, rfl, by simp [recordStart]⟩

lemma noteOff_not_noteOn (m : MidiMessage) (h : isNoteOffMessage m = true) :
    isNoteOnMessage m = false := by
  unfold isNoteOffMessage at h
  unfold isNoteOnMessage
  by_cases h9 : m.status >>> 4 = NOTE_ON_START
  · have h8 : ¬ m.status >>> 4 = NOTE_OFF_START := by rw [h9]; decide
    rw [if_neg h8, if_pos h9] at h
    rw [if_pos h9]
    simp at h ⊢
    exact h
  · rw [if_neg h9]

lemma lookup_assocDelete_self (l : List (Nat × Nat)) (k : Nat) :
    (assocDelete l k).lookup k = none := by
  induction l with
  | nil => rfl
  | cons p rest ih =>
      obtain ⟨pk, pv⟩ := p
      by_cases hp : pk = k
      · have hstep : assocDelete ((pk, pv) :: rest) k = assocDelete rest k := by
          simp [assocDelete, List.filter_cons, hp]
        rw [hstep]
        exact ih
      · have hstep : assocDelete ((pk, pv) :: rest) k = (pk, pv) :: assocDelete rest k := by
          simp [assocDelete, List.filter_cons, hp]
        rw [hstep]
        have hbeq : (k == pk) = false := by simp [Ne.symm hp]
        simp [List.lookup, hbeq, ih]

lemma lookup_assocDelete_other (l : List (Nat × Nat)) (k kp : Nat) (hne : kp ≠ k) :
    (assocDelete l k).lookup kp = l.lookup kp := by
  induction l with
  | nil => rfl
  | cons p rest ih =>
      obtain ⟨pk, pv⟩ := p
      by_cases hp : pk = k
      · have hstep : assocDelete ((pk, pv) :: rest) k = assocDelete rest k := by
          simp [assocDelete, List.filter_cons, hp]
        have hbeq : (kp == pk) = false := by
          subst hp
          simp [hne]
        rw [hstep]
        simp [List.lookup, hbeq, ih]
      · have hstep : assocDelete ((pk, pv) :: rest) k = (pk, pv) :: assocDelete rest k := by
          simp [assocDelete, List.filter_cons, hp]
        rw [hstep]
        by_cases hpk : kp = pk
        · simp [List.lookup, hpk]
        · have hbeq : (kp == pk) = false := by simp [hpk]
          simp [List.lookup, hbeq, ih]

lemma setRecEnd_getElem? (l : List RecNote) (i : Nat) (e : ℚ) (j : Nat) :
    (setRecEnd l i e)[j]? =
      if i = j then (l[j]?).map (fun n => { n with «end» := some e })
      else l[j]? := by
  unfold setRecEnd
  cases hgi : l[i]? with
  | none =>
      by_cases hij : i = j
      · subst hij
        simp [hgi]
      · simp [hij]
  | some n =>
      have hi : i < l.length := by
        by_contra hcon
        rw [List.getElem?_eq_none (by omega)] at hgi
        exact Option.noConfusion hgi
      rw [List.getElem?_set]
      by_cases hij : i = j
      · subst hij
        simp [hi, hgi]
      · simp [hij]

lemma closeHangingNotes_getElem? : ∀ (hl : List (Nat × Nat)) (l : List RecNote) (e : ℚ) (j : Nat),
    (closeHangingNotes hl l e)[j]? =
      if j ∈ hl.map Prod.snd then (l[j]?).map (fun n => { n with «end» := some e })
      else l[j]? := by
  intro hl
  induction hl with
  | nil =>
      intro l e j
      simp [closeHangingNotes]
  | cons kv rest ih =>
      intro l e j
      have hstep : closeHangingNotes (kv :: rest) l e =
          closeHangingNotes rest (setRecEnd l kv.2 e) e := rfl
      rw [hstep, ih, setRecEnd_getElem?]
      by_cases h2 : kv.2 = j
      · subst h2
        by_cases h1 : kv.2 ∈ rest.map Prod.snd
        · simp only [h1, if_true, if_pos rfl, List.map_cons, List.mem_cons]
          cases l[kv.2]? <;> simp
        · simp [h1, List.map_cons]
      · by_cases h1 : j ∈ rest.map Prod.snd
        · simp [h1, h2, Ne.symm h2, List.map_cons]
        · simp [h1, h2, Ne.symm h2, List.map_cons]

lemma recNoteListCopy_eq (l : List RecNote) : recNoteListCopy l = l := by
  induction l with
  | nil => rfl
  | cons n rest ih => simp [recNoteListCopy]

/-- C5: while recording, a Note Off (status high nibble `0b1000`, or
`0b1001` with velocity byte 0) for a pitch with a hanging note sets that
note's `end` to `eventTime - startTime` (leaving every other note
untouched) and clears that pitch's hang (leaving every other hang
untouched); a Note Off for a pitch with no hanging note leaves the state —
note list and hanging-note map included — entirely unchanged. -/
theorem onMidiInputMessage_noteOff (st : RecordState) (midiEvent : MidiEvent)
    (hrec : st.isRecording = true)
    (hoff : isNoteOffMessage midiEvent.data = true) :
    (∀ noteI,
       st.hangingNotes.lookup (getNoteFromNoteMessage midiEvent.data) = some noteI →
         (onMidiInputMessage st midiEvent).notes =
             setRecEnd st.notes noteI (midiEvent.timeStamp - st.startTime) ∧
           (onMidiInputMessage st midiEvent).notes[noteI]? =
             (st.notes[noteI]?).map
               (fun n => { n with «end» := some (midiEvent.timeStamp - st.startTime) }) ∧
           (∀ j, j ≠ noteI →
             (onMidiInputMessage st midiEvent).notes[j]? = st.notes[j]?) ∧
           (onMidiInputMessage st midiEvent).hangingNotes.lookup
               (getNoteFromNoteMessage midiEvent.data) = none ∧
           (∀ k, k ≠ getNoteFromNoteMessage midiEvent.data →
             (onMidiInputMessage st midiEvent).hangingNotes.lookup k =
               st.hangingNotes.lookup k)) ∧
    (st.hangingNotes.lookup (getNoteFromNoteMessage midiEvent.data) = none →
       onMidiInputMessage st midiEvent = st) := by
  have hon : isNoteOnMessage midiEvent.data = false := noteOff_not_noteOn _ hoff
  constructor
  · intro noteI hlk
    have hred : onMidiInputMessage st midiEvent =
        { st with
          notes := setRecEnd st.notes noteI (midiEvent.timeStamp - st.startTime),
          hangingNotes := assocDelete st.hangingNotes
            (getNoteFromNoteMessage midiEvent.data) } := by
      simp [onMidiInputMessage, hrec, hon, hoff, hlk]
    rw [hred]
    refine ⟨rfl, ?_, ?_, ?_, ?_⟩
    · rw [setRecEnd_getElem?, if_pos rfl]
    · intro j hj
      rw [setRecEnd_getElem?, if_neg (by omega)]
    · exact lookup_assocDelete_self _ _
    · intro k hk
      exact lookup_assocDelete_other _ _ _ hk
  · intro hlk
    simp [onMidiInputMessage, hrec, hon, hoff, hlk]

theorem onMidiInputMessage_noteOff_witness :
    (onMidiInputMessage
        { midiInput := some 0, startTime := 0, hangingNotes := [(60, 0)],
          notes := [{ note := 60, start := 100, velocity := 80, «end» := none }],
          isRecording := true }
        { data := { status := 128, data1 := 60, data2 := 0 }, timeStamp := 250 }).notes =
      setRecEnd [{ note := 60, start := 100, velocity := 80, «end» := none }] 0 (250 - 0) ∧
    (onMidiInputMessage
        { midiInput := some 0, startTime := 0, hangingNotes := [(60, 0)],
          notes := [{ note := 60, start := 100, velocity := 80, «end» := none }],
          isRecording := true }
        { data := { status := 128, data1 := 60, data2 := 0 }, timeStamp := 250
          }).hangingNotes.lookup 60 = none ∧
    onMidiInputMessage
        { midiInput := some 0, startTime := 0, hangingNotes := [],
          notes := [], isRecording := true }
        { data := { status := 128, data1 := 60, data2 := 0 }, timeStamp := 250 } =
      { midiInput := some 0, startTime := 0, hangingNotes := [], notes := [],
        isRecording := true } := by
  have h1 := onMidiInputMessage_noteOff
    { midiInput := some 0, startTime := 0, hangingNotes := [(60, 0)],
      notes := [{ note := 60, start := 100, velocity := 80, «end» := none }],
      isRecording := true }
    { data := { status := 128, data1 := 60, data2 := 0 }, timeStamp := 250 }
    rfl (by decide)
  have h2 := onMidiInputMessage_noteOff
    { midiInput := some 0, startTime := 0, hangingNotes := [], notes := [],
      isRecording := true }
    { data := { status := 128, data1 := 60, data2 := 0 }, timeStamp := 250 }
    rfl (by decide)
  exact ⟨(h1.1 0 (by decide)).1, (h1.1 0 (by decide)).2.2.2.1, h2.2 (by decide)⟩

/-- C6: `record.stop` while recording closes every still-hanging note with
`end = now - startTime` (leaving non-hanging notes untouched), clears the
hangs, and returns a (content-identical deep copy of the) finished note
list; while not recording it returns the empty list and changes nothing. -/
theorem recordStop_closes_and_returns (st : RecordState) (now : ℚ) :
    (st.isRecording = true →
       (recordStop st now).2 = (recordStop st now).1.notes ∧
         (recordStop st now).1.isRecording = false ∧
         (recordStop st now).1.hangingNotes = [] ∧
         (∀ kv ∈ st.hangingNotes,
           ((recordStop st now).1.notes)[kv.2]? =
             (st.notes[kv.2]?).map
               (fun n => { n with «end» := some (now - st.startTime) })) ∧
         (∀ j, j ∉ st.hangingNotes.map Prod.snd →
           ((recordStop st now).1.notes)[j]? = st.notes[j]?)) ∧
    (st.isRecording = false → recordStop st now = (st, [])) := by
  constructor
  · intro hrec
    have h1 : (recordStop st now).1.notes =
        closeHangingNotes st.hangingNotes st.notes (now - st.startTime) := by
      simp [recordStop, hrec]
    have h2 : (recordStop st now).2 =
        recNoteListCopy (closeHangingNotes st.hangingNotes st.notes (now - st.startTime)) := by
      simp [recordStop, hrec]
    refine ⟨?_, ?_, ?_, ?_, ?_⟩
    · rw [h1, h2, recNoteListCopy_eq]
    · simp [recordStop, hrec]
    · simp [recordStop, hrec]
    · intro kv hkv
      rw [h1, closeHangingNotes_getElem?, if_pos (List.mem_map_of_mem Prod.snd hkv)]
    · intro j hj
      rw [h1, closeHangingNotes_getElem?, if_neg hj]
  · intro hrec
    simp [recordStop, hrec]

theorem recordStop_closes_and_returns_witness :
    (recordStop
        { midiInput := some 0, startTime := 0, hangingNotes := [(60, 0)],
          notes := [{ note := 60, start := 100, velocity := 80, «end» := none }],
          isRecording := true } 500).2 =
      (recordStop
        { midiInput := some 0, startTime := 0, hangingNotes := [(60, 0)],
          notes := [{ note := 60, start := 100, velocity := 80, «end» := none }],
          isRecording := true } 500).1.notes ∧
    ((recordStop
        { midiInput := some 0, startTime := 0, hangingNotes := [(60, 0)],
          notes := [{ note := 60, start := 100, velocity := 80, «end» := none }],
          isRecording := true } 500).1.notes)[0]? =
      some { note := 60, start := 100, velocity := 80, «end» := some 500 } := by
  have h := recordStop_closes_and_returns
    { midiInput := some 0, startTime := 0, hangingNotes := [(60, 0)],
      notes := [{ note := 60, start := 100, velocity := 80, «end» := none }],
      isRecording := true } 500
  refine ⟨(h.1 rfl).1, ((h.1 rfl).2.2.2.1 (60, 0) (by decide)).trans ?_⟩
  norm_num

/-- C10: `onDeleteNote` removes exactly the first (lowest-index) element
all four of whose fields equal the argument's — at most one element even
when several equal notes are present — and leaves the list unchanged when
no element matches; `noteEquals` is equality of `start`, `end`, `note` and
`velocity`. -/
theorem onDeleteNote_removes_first_match (notes : List Note) (note : Note) :
    (∀ i, notes.findIdx? (fun n => noteEquals note n) = some i →
       onDeleteNote notes note = notes.eraseIdx i) ∧
    (notes.findIdx? (fun n => noteEquals note n) = none →
       onDeleteNote notes note = notes) ∧
    (∀ a b : Note, noteEquals a b = true ↔
       (a.start = b.start ∧ a.«end» = b.«end» ∧ a.note = b.note ∧ a.velocity = b.velocity)) := by
  refine ⟨?_, ?_, ?_⟩
  · intro i hi
    induction notes generalizing i with
    | nil => simp [List.findIdx?] at hi
    | cons n rest ih =>
        rw [List.findIdx?_cons] at hi
        by_cases hc : noteEquals note n = true
        · rw [if_pos hc] at hi
          simp at hi
          subst hi
          simp [onDeleteNote, hc, List.eraseIdx]
        · rw [if_neg hc, List.findIdx?_succ, Option.map_eq_some'] at hi
          obtain ⟨j, hj, rfl⟩ := hi
          simp only [onDeleteNote, if_neg hc]
          rw [ih j hj]
          rfl
  · intro hnone
    induction notes with
    | nil => rfl
    | cons n rest ih =>
        rw [List.findIdx?_cons] at hnone
        by_cases hc : noteEquals note n = true
        · rw [if_pos hc] at hnone
          simp at hnone
        · rw [if_neg hc, List.findIdx?_succ, Option.map_eq_none'] at hnone
          simp only [onDeleteNote, if_neg hc]
          rw [ih hnone]
  · intro a b
    simp [noteEquals, and_assoc]

theorem onDeleteNote_removes_first_match_witness :
    onDeleteNote [⟨60, 0, 50, 100⟩, ⟨60, 0, 50, 100⟩, ⟨62, 1, 2, 3⟩] ⟨60, 0, 50, 100⟩ =
      List.eraseIdx [⟨60, 0, 50, 100⟩, ⟨60, 0, 50, 100⟩, ⟨62, 1, 2, 3⟩] 0 ∧
    onDeleteNote [⟨60, 0, 50, 100⟩] ⟨61, 0, 50, 100⟩ = [⟨60, 0, 50, 100⟩] :=
  ⟨(onDeleteNote_removes_first_match _ _).1 0 (by decide),
   (onDeleteNote_removes_first_match _ _).2.1 (by decide)⟩

lemma checkProp_ok (i : Nat) (p : String) (v : Option JSValue) (q : ℚ)
    (h : checkProp i p v = .ok q) : jsNum v = some q ∧ 0 ≤ q := by
  cases v with
  | none => simp [checkProp] at h
  | some jv =>
      cases jv with
      | num x =>
          by_cases hx : x < 0
          · simp [checkProp, hx] at h
          · simp [checkProp, hx] at h
            subst h
            exact ⟨rfl, le_of_not_lt hx⟩
      | nonNum => simp [checkProp] at h

lemma validateNote_ok (i : Nat) (r : RawNote) (n : Note) (h : validateNote i r = .ok n) :
    jsNum r.start = some n.start ∧ jsNum r.«end» = some n.«end» ∧
      jsNum r.note = some n.note ∧ jsNum r.velocity = some n.velocity ∧
      0 ≤ n.start ∧ 0 ≤ n.«end» ∧ 0 ≤ n.note ∧ 0 ≤ n.velocity := by
  unfold validateNote at h
  cases hs : checkProp i "start" r.start with
  | error e =>
      rw [hs] at h
      simp [Bind.bind, Except.bind] at h
  | ok s =>
  cases he : checkProp i "end" r.«end» with
  | error e =>
      rw [hs, he] at h
      simp [Bind.bind, Except.bind] at h
  | ok e2 =>
  cases hn : checkProp i "note" r.note with
  | error e =>
      rw [hs, he, hn] at h
      simp [Bind.bind, Except.bind] at h
  | ok n2 =>
  cases hv : checkProp i "velocity" r.velocity with
  | error e =>
      rw [hs, he, hn, hv] at h
      simp [Bind.bind, Except.bind] at h
  | ok v2 =>
      rw [hs, he, hn, hv] at h
      simp [Bind.bind, Except.bind, pure, Except.pure] at h
      obtain ⟨hq1, hq2⟩ := checkProp_ok _ _ _ _ hs
      obtain ⟨he1, he2⟩ := checkProp_ok _ _ _ _ he
      obtain ⟨hn1, hn2⟩ := checkProp_ok _ _ _ _ hn
      obtain ⟨hv1, hv2⟩ := checkProp_ok _ _ _ _ hv
      subst h
      exact ⟨hq1, he1, hn1, hv1, hq2, he2, hn2, hv2⟩

lemma outOfOrderCheck_false (acc : List Note) (n : Note)
    (hs : acc.Pairwise (fun a b => b.start ≤ a.start))
    (h : outOfOrderCheck acc n = false) : ∀ a ∈ acc, a.start ≤ n.start := by
  cases acc with
  | nil => simp
  | cons p acc2 =>
      simp only [outOfOrderCheck, decide_eq_false_iff_not, not_lt] at h
      intro a ha
      rcases List.mem_cons.mp ha with rfl | ha2
      · exact h
      · exact le_trans ((List.pairwise_cons.mp hs).1 a ha2) h

lemma rawOverlapping_of_ok (i : Nat) (r : RawNote) (n m : Note)
    (h : validateNote i r = .ok n) : rawOverlapping m r = areOverlapping m n := by
  obtain ⟨h1, h2, h3, _⟩ := validateNote_ok i r n h
  unfold rawOverlapping areOverlapping
  rw [h1, h2, h3]

/-- The noteloop invariant: a validated, reverse-sorted, pairwise
non-overlapping prefix whose notes have been checked against every
remaining raw note yields, on success, a fully valid note list. -/
lemma validateLoop_ok : ∀ (rest : List RawNote) (acc : List Note),
    (∀ a ∈ acc, validNote a) →
    acc.Pairwise (fun a b => b.start ≤ a.start) →
    acc.Pairwise (fun a b => areOverlapping a b = false) →
    (∀ a ∈ acc, ∀ r ∈ rest, rawOverlapping a r = false) →
    ∀ l, validateLoop acc rest = .ok l →
      (∀ n ∈ l, validNote n) ∧ NoteListInvariant l := by
  intro rest
  induction rest with
  | nil =>
      intro acc hv hs ho _ l h
      rw [validateLoop] at h
      simp at h
      subst h
      refine ⟨fun n hn => hv n (List.mem_reverse.mp hn), ?_, ?_⟩
      · exact List.pairwise_reverse.mpr hs
      · exact List.pairwise_reverse.mpr (ho.imp fun hab => by rwa [areOverlapping_symm])
  | cons r rs ih =>
      intro acc hv hs ho hc l h
      rw [validateLoop] at h
      split at h
      · simp at h
      · rename_i n hvn
        split at h
        · simp at h
        · rename_i h1
          split at h
          · simp at h
          · rename_i h2
            split at h
            · simp at h
            · rename_i hov
              have h2f : outOfOrderCheck acc n = false := by
                simpa using h2
              have hle : ∀ a ∈ acc, a.start ≤ n.start :=
                outOfOrderCheck_false acc n hs h2f
              have hnov : ∀ a ∈ acc, areOverlapping n a = false := by
                intro a ha
                have hra := hc a ha r (List.mem_cons_self r rs)
                rw [rawOverlapping_of_ok _ _ _ _ hvn] at hra
                rw [areOverlapping_symm]
                exact hra
              obtain ⟨_, _, _, _, hq1, hq2, hq3, hq4⟩ := validateNote_ok _ _ _ hvn
              apply ih (n :: acc) ?hv2 ?hs2 ?ho2 ?hc2 l h
              case hv2 =>
                intro a ha
                rcases List.mem_cons.mp ha with rfl | ha2
                · exact ⟨hq1, hq2, hq3, hq4, lt_of_not_le h1⟩
                · exact hv a ha2
              case hs2 =>
                rw [List.pairwise_cons]
                exact ⟨fun b hb => hle b hb, hs⟩
              case ho2 =>
                rw [List.pairwise_cons]
                exact ⟨hnov, ho⟩
              case hc2 =>
                intro a ha r2 hr2
                rcases List.mem_cons.mp ha with rfl | ha2
                · have := List.findIdx?_eq_none_iff.mp hov r2 hr2
                  simpa using this
                · exact hc a ha2 r2 (List.mem_cons_of_mem r hr2)

/-- C9: loading a persisted note list is atomic — on any validation
failure an error (carrying the offending note index, and the offending
field for the per-property checks) is reported and the prior canonical
list is returned unchanged, and the canonical list is replaced only when
every entry passes validation, in which case the loaded list has numeric
non-negative fields with `end > start`, ascending starts and no same-pitch
overlap. -/
theorem onPressLoadNotes_atomic_valid (prevNotes : List Note) (raw : List RawNote) :
    (∀ e, (onPressLoadNotes prevNotes raw).2 = some e →
       (onPressLoadNotes prevNotes raw).1 = prevNotes) ∧
    ((onPressLoadNotes prevNotes raw).2 = none →
       (∀ n ∈ (onPressLoadNotes prevNotes raw).1, validNote n) ∧
         NoteListInvariant (onPressLoadNotes prevNotes raw).1) := by
  cases hval : validateNotes raw with
  | ok l =>
      constructor
      · intro e he
        simp [onPressLoadNotes, hval] at he
      · intro _
        have hres : (onPressLoadNotes prevNotes raw).1 = l := by
          simp [onPressLoadNotes, hval]
        rw [hres]
        exact validateLoop_ok raw [] (by simp) (by simp) (by simp) (by simp) l hval
  | error e =>
      constructor
      · intro e2 _
        simp [onPressLoadNotes, hval]
      · intro hnone
        simp [onPressLoadNotes, hval] at hnone

theorem onPressLoadNotes_atomic_valid_witness :
    (onPressLoadNotes [⟨1, 2, 3, 4⟩]
        [{ start := some (.num 0), «end» := some (.num 50), note := some (.num 60),
           velocity := none }]).1 = [⟨1, 2, 3, 4⟩] :=
  (onPressLoadNotes_atomic_valid [⟨1, 2, 3, 4⟩]
      [{ start := some (.num 0), «end» := some (.num 50), note := some (.num 60),
         velocity := none }]).1
    (LoadError.missingProperty 0 "velocity") (by decide)
